import Mathlib

/-!
Verification of the calculator state machine of `src/src/App.tsx`
(Ron-Web-Dotcom/react-calculator).

The reducer and its helpers are embedded shallowly.  JavaScript numbers
(IEEE-754 doubles) are idealized as exact rationals extended with the
three non-finite sentinels `NaN`, `Infinity` and `-Infinity`; all the
arithmetic exercised by the claims (small integers and terminating
decimals) is exact in both semantics, so the idealization is faithful on
those inputs.  The transcendental library functions (`Math.sqrt`,
`Math.sin`, `Math.cos`, `Math.tan`, `Math.log10`, `Math.log`,
non-integer `Math.pow`, and the degree-to-radian conversion factor
`Math.PI / 180`) have no exact rational meaning; they are abstracted as
parameters of a `MathModel`, and every theorem about the reducer is
proved for an arbitrary model.
-/

namespace Calculator

set_option maxRecDepth 8000

/-- A JavaScript number: an exact rational, or one of the IEEE-754
sentinels `NaN`, `Infinity`, `-Infinity`. -/
inductive JSNum where
  | nan : JSNum
  | inf : JSNum
  | negInf : JSNum
  | fin : ℚ → JSNum
deriving DecidableEq, Repr

/-!
The Mathlib arithmetic on `ℚ` is `@[irreducible]`, so concrete states
could not be evaluated inside proofs through it.  The embedding
therefore uses the following `mkRat`-based operations, which the kernel
can compute; each is proved equal to the corresponding Mathlib
operation below (`ratAdd_eq` and friends), so the embedding carries
exact rational semantics.
-/

/-- Rational addition, kernel-computable. -/
def ratAdd (a b : ℚ) : ℚ := mkRat (a.num * b.den + b.num * a.den) (a.den * b.den)

/-- Rational subtraction, kernel-computable. -/
def ratSub (a b : ℚ) : ℚ := mkRat (a.num * b.den - b.num * a.den) (a.den * b.den)

/-- Rational multiplication, kernel-computable. -/
def ratMul (a b : ℚ) : ℚ := mkRat (a.num * b.num) (a.den * b.den)

/-- Rational negation, kernel-computable. -/
def ratNeg (a : ℚ) : ℚ := mkRat (-a.num) a.den

/-- Rational reciprocal, kernel-computable (`0` maps to `0`; the
callers below guard the zero case separately, matching IEEE-754). -/
def ratInv (a : ℚ) : ℚ :=
  if a.num < 0 then mkRat (-(a.den : ℤ)) a.num.natAbs
  else mkRat (a.den : ℤ) a.num.natAbs

/-- Rational division, kernel-computable. -/
def ratDiv (a b : ℚ) : ℚ := ratMul a (ratInv b)

/-- Rational absolute value, kernel-computable. -/
def ratAbs (a : ℚ) : ℚ := mkRat (a.num.natAbs : ℤ) a.den

/-- Rational power by a natural, kernel-computable. -/
def ratPowNat (a : ℚ) : ℕ → ℚ
  | 0 => 1
  | n + 1 => ratMul (ratPowNat a n) a

/-- Rational power by an integer, kernel-computable. -/
def ratZpow (a : ℚ) (e : ℤ) : ℚ :=
  if 0 ≤ e then ratPowNat a e.toNat else ratInv (ratPowNat a e.natAbs)

/-- Decimal digits read greedily from the front of a character list,
together with the unread remainder (the digit scan of `parseFloat`). -/
def takeDigits : List Char → List ℕ × List Char
  | [] => ([], [])
  | c :: cs =>
    if c.isDigit then
      let r := takeDigits cs
      ((c.toNat - 48) :: r.1, r.2)
    else ([], c :: cs)

/-- Value of a digit list read as an integer, most significant first. -/
def digitsToNat (ds : List ℕ) : ℕ := ds.foldl (fun a d => 10 * a + d) 0

/-- Value of a digit list read as a fractional part `0.d₁d₂…`. -/
def fracValue (ds : List ℕ) : ℚ := ds.foldr (fun d a => ratDiv (ratAdd (d : ℚ) a) 10) 0

/-- `parseFloat` of `App.tsx`'s number strings: an optional sign, then
either the literal `"Infinity"` (which the calculator itself produces,
e.g. as the reciprocal of `"0"`) or an integer digit run with an
optional `.` and fractional digit run, read from the front of the
string; anything after the parsed portion is ignored, and no literal at
all gives `NaN`.  (The exponent forms never arise from the calculator's
own number formatting and are not modelled.) -/
def parseFloat (str : String) : JSNum :=
  let cs := str.toList
  let signAndRest : Bool × List Char :=
    match cs with
    | '-' :: rest => (true, rest)
    | '+' :: rest => (false, rest)
    | _ => (false, cs)
  if signAndRest.2.take 8 = ['I', 'n', 'f', 'i', 'n', 'i', 't', 'y'] then
    if signAndRest.1 then .negInf else .inf
  else
    let ints := takeDigits signAndRest.2
    let fracs : List ℕ :=
      match ints.2 with
      | '.' :: rest => (takeDigits rest).1
      | _ => []
    if ints.1 = [] ∧ fracs = [] then .nan
    else
      let v : ℚ := ratAdd (digitsToNat ints.1 : ℚ) (fracValue fracs)
      .fin (if signAndRest.1 then ratNeg v else v)

/-- Smallest `k ≤ fuel` such that `q * 10 ^ k` is an integer (the number
of decimal digits after the point), or `fuel` when none exists. -/
def termExpAux : ℕ → ℚ → ℕ
  | 0, _ => 0
  | fuel + 1, q => if q.den = 1 then 0 else termExpAux fuel (ratMul q 10) + 1

/-- Decimal digits of `n`, left-padded with zeros to width `k`. -/
def padZeros (n k : ℕ) : String :=
  let s := toString n
  String.mk (List.replicate (k - s.length) '0') ++ s

/-- Decimal rendering of a non-negative rational with a terminating
decimal expansion, in the canonical shortest form `Number.toString`
produces for such values (no trailing zeros, a `0` before a leading
point). -/
def ratToStringNN (q : ℚ) : String :=
  let k := termExpAux 100 q
  if k = 0 then toString (q.num.toNat)
  else
    let n := (ratMul q (ratPowNat 10 k)).num.toNat
    toString (n / 10 ^ k) ++ "." ++ padZeros (n % 10 ^ k) k

/-- Decimal rendering of a rational, sign included. -/
def ratToString (q : ℚ) : String :=
  if q < 0 then "-" ++ ratToStringNN (ratNeg q) else ratToStringNN q

/-- `Number.prototype.toString` on the embedded numbers. -/
def jsToString : JSNum → String
  | .nan => "NaN"
  | .inf => "Infinity"
  | .negInf => "-Infinity"
  | .fin q => ratToString q

/-- JavaScript division, including the IEEE-754 zero-divisor and
non-finite cases (`x/0` is `±Infinity` for `x ≠ 0`, `0/0` is `NaN`). -/
def jsDiv : JSNum → JSNum → JSNum
  | .nan, _ => .nan
  | _, .nan => .nan
  | .inf, .inf => .nan
  | .inf, .negInf => .nan
  | .negInf, .inf => .nan
  | .negInf, .negInf => .nan
  | .inf, .fin q => if q < 0 then .negInf else .inf
  | .negInf, .fin q => if q < 0 then .inf else .negInf
  | .fin _, .inf => .fin 0
  | .fin _, .negInf => .fin 0
  | .fin p, .fin q =>
    if q = 0 then (if p = 0 then .nan else if p < 0 then .negInf else .inf)
    else .fin (ratDiv p q)

/-- JavaScript addition on the embedded numbers, with the IEEE-754
non-finite cases (`Infinity + -Infinity` is `NaN`). -/
def jsAdd : JSNum → JSNum → JSNum
  | .nan, _ => .nan
  | _, .nan => .nan
  | .inf, .negInf => .nan
  | .negInf, .inf => .nan
  | .inf, _ => .inf
  | _, .inf => .inf
  | .negInf, _ => .negInf
  | _, .negInf => .negInf
  | .fin p, .fin c => .fin (ratAdd p c)

/-- JavaScript subtraction on the embedded numbers, with the IEEE-754
non-finite cases (`Infinity - Infinity` is `NaN`). -/
def jsSub : JSNum → JSNum → JSNum
  | .nan, _ => .nan
  | _, .nan => .nan
  | .inf, .inf => .nan
  | .negInf, .negInf => .nan
  | .inf, _ => .inf
  | .negInf, _ => .negInf
  | .fin _, .inf => .negInf
  | .fin _, .negInf => .inf
  | .fin p, .fin c => .fin (ratSub p c)

/-- JavaScript multiplication on the embedded numbers, with the
IEEE-754 non-finite cases (`Infinity * 0` is `NaN`, signs multiply). -/
def jsMul : JSNum → JSNum → JSNum
  | .nan, _ => .nan
  | _, .nan => .nan
  | .inf, .inf => .inf
  | .inf, .negInf => .negInf
  | .negInf, .inf => .negInf
  | .negInf, .negInf => .inf
  | .inf, .fin q => if q = 0 then .nan else if q < 0 then .negInf else .inf
  | .fin q, .inf => if q = 0 then .nan else if q < 0 then .negInf else .inf
  | .negInf, .fin q => if q = 0 then .nan else if q < 0 then .inf else .negInf
  | .fin q, .negInf => if q = 0 then .nan else if q < 0 then .inf else .negInf
  | .fin p, .fin c => .fin (ratMul p c)

/-- JavaScript negation `x * -1` as used by the sign toggle. -/
def jsNeg : JSNum → JSNum
  | .nan => .nan
  | .inf => .negInf
  | .negInf => .inf
  | .fin q => .fin (ratNeg q)

/-- `Math.pow(x, 2)` as used by the square key. -/
def jsSquare : JSNum → JSNum
  | .nan => .nan
  | .inf => .inf
  | .negInf => .inf
  | .fin q => .fin (ratPowNat q 2)

/-- `Math.abs`. -/
def jsAbs : JSNum → JSNum
  | .nan => .nan
  | .inf => .inf
  | .negInf => .inf
  | .fin q => .fin (ratAbs q)

/-- The value of the reducer's local `factorial` helper wherever its
loop terminates.  The loop multiplies `res` by every integer
`i = 2, 3, …` with `i <= n`, so on a non-negative finite argument it
computes `⌊n⌋!` (here `q.num.toNat / q.den`, the floor of the
non-negative `q`; for `n < 2`, including the non-integer inputs below
`2`, the loop body never runs and the result is `1`).  `NaN` fails
every comparison, so `factorial(NaN)` falls through both guards and the
loop and returns `1`.  On `Infinity` the source loop does not terminate
and this totalization assigns `Infinity` to the unboundedly growing
product; the loop itself is modelled faithfully as the fuel-indexed
`factorialFuel` below, proved to agree with this value on every input
on which it terminates and to diverge on `Infinity`
(`reducer_totality_amended`). -/
def jsFactorial : JSNum → JSNum
  | .nan => .fin 1
  | .inf => .inf
  | .negInf => .nan
  | .fin q => if q < 0 then .nan else .fin ((Nat.factorial (q.num.toNat / q.den) : ℕ) : ℚ)

/-- The loop guard `i <= n` of the factorial helper, with a rational
counter against an embedded bound (`NaN` compares false, `Infinity`
true). -/
def jsLeQ (i : ℚ) : JSNum → Bool
  | .nan => false
  | .inf => true
  | .negInf => false
  | .fin q => decide (i ≤ q)

/-- The guard `n < 0` of the factorial helper. -/
def jsLtZero : JSNum → Bool
  | .nan => false
  | .inf => false
  | .negInf => true
  | .fin q => decide (q < 0)

/-- The factorial helper's loop `for (let i = 2; i <= n; i++) res *= i`
as a partial (fuel-indexed) function: `some` of the final `res` if the
loop exits within `fuel` iterations, `none` if the fuel runs out while
the guard still holds.  The counter is exact (the IEEE saturation of
the double counter at 2^53, which additionally hangs the loop for
finite `n ≥ 2^53`, is outside the exact-number model). -/
def factLoop (n : JSNum) : ℚ → ℚ → ℕ → Option ℚ
  | i, res, 0 => if jsLeQ i n then none else some res
  | i, res, fuel + 1 =>
    if jsLeQ i n then factLoop n (ratAdd i 1) (ratMul res i) fuel else some res

/-- The factorial helper of the `SCIENTIFIC_OPERATION` case as a
partial function: `NaN` for negative input, `1` for `0`, otherwise the
loop from `i = 2`, `res = 1` — `none` when the loop does not finish
within `fuel` iterations. -/
def factorialFuel (n : JSNum) (fuel : ℕ) : Option JSNum :=
  if jsLtZero n then some .nan
  else if n = .fin 0 then some (.fin 1)
  else (factLoop n 2 1 fuel).map JSNum.fin

/-- Product `k * (k+1) * ⋯ * (k+c-1)` of `c` consecutive integers from
`k`, the quantity the factorial loop accumulates. -/
def rangeProd : ℕ → ℕ → ℕ
  | _, 0 => 1
  | k, c + 1 => k * rangeProd (k + 1) c

/-- The transcendental `Math` library functions the reducer calls, which
have no exact rational semantics: they are abstracted, and the theorems
below hold for every model.  `degToRad` abstracts the multiplication
`x * (Math.PI / 180)`; `rpow` abstracts `Math.pow` on a non-integer
exponent; `powNonFin` abstracts `Math.pow` when either argument is
non-finite. -/
structure MathModel where
  sqrtFn : JSNum → JSNum
  sinFn : JSNum → JSNum
  cosFn : JSNum → JSNum
  tanFn : JSNum → JSNum
  log10Fn : JSNum → JSNum
  lnFn : JSNum → JSNum
  degToRad : JSNum → JSNum
  rpow : ℚ → ℚ → JSNum
  powNonFin : JSNum → JSNum → JSNum

/-- An arbitrary concrete model, used only to evaluate the reducer at
concrete inputs whose computation never reaches a transcendental
function. -/
def anyModel : MathModel :=
  ⟨fun _ => .nan, fun _ => .nan, fun _ => .nan, fun _ => .nan,
   fun _ => .nan, fun _ => .nan, fun _ => .nan, fun _ _ => .nan, fun _ _ => .nan⟩

/-- `Math.pow(p, c)`: exact for an integer exponent (`0 ^ e` with
`e < 0` is `Infinity`), abstract (`MathModel.rpow`) otherwise. -/
def jsPow (M : MathModel) (p c : ℚ) : JSNum :=
  if c.den = 1 then
    if 0 ≤ c.num then .fin (ratPowNat p c.num.toNat)
    else if p = 0 then .inf
    else .fin (ratZpow p c.num)
  else M.rpow p c

/-- `Math.pow` on the embedded numbers: `jsPow` on finite arguments,
abstract (`MathModel.powNonFin`) when either argument is non-finite. -/
def jsPowNum (M : MathModel) : JSNum → JSNum → JSNum
  | .fin p, .fin c => jsPow M p c
  | a, b => M.powNonFin a b

/-- The exact decimal expansion of `Math.PI.toString()`. -/
def piString : String := "3.141592653589793"

/-- The exact decimal expansion of `Math.E.toString()`. -/
def eString : String := "2.718281828459045"

/-- One entry of the calculation history. -/
structure HistEntry where
  expression : String
  result : String
deriving DecidableEq, Repr

/-- The calculator state of `App.tsx`.  The optional/nullable TypeScript
fields become `Option`s (both `undefined` and `null` map to `none`); the
theme union type is kept as a string, optional because `SET_THEME` with
a missing payload stores `undefined`. -/
structure State where
  currentOperand : Option String
  previousOperand : Option String
  operation : Option String
  overwrite : Bool
  history : List HistEntry
  isRadians : Bool
  theme : Option String
deriving DecidableEq, Repr

/-- The optional payload of an action. -/
structure Payload where
  digit : Option String
  operation : Option String
deriving DecidableEq, Repr

/-- A dispatched action.  The source's action kinds are string
constants (the `ACTIONS` table), and the reducer's `default` case
accepts any other string, so the kind is embedded as an open `String`
rather than a closed enumeration. -/
structure Action where
  type : String
  payload : Option Payload
deriving DecidableEq, Repr

/-- The `evaluate` helper of `App.tsx`: parses both operands (`null`
defaulting to the empty string), returns `""` when either parse is
`NaN` (the `isNaN` guard — infinite operands pass it), and otherwise
applies the pending binary operator, an unrecognized operator giving
`0`. -/
def evaluate (M : MathModel) (s : State) : String :=
  let prev := parseFloat (s.previousOperand.getD "")
  let current := parseFloat (s.currentOperand.getD "")
  if prev = .nan ∨ current = .nan then ""
  else
    let computation : JSNum :=
      if s.operation = some "+" then jsAdd prev current
      else if s.operation = some "-" then jsSub prev current
      else if s.operation = some "*" then jsMul prev current
      else if s.operation = some "÷" then jsDiv prev current
      else if s.operation = some "^" then jsPowNum M prev current
      else .fin 0
    jsToString computation

/-- Result value and rendered expression of the ten unary scientific
operations (the `SCIENTIFIC_OPERATION` switch, minus the `pi`/`e`
constants that return early and the `default` no-op, both handled by
the caller). -/
def sciResult (M : MathModel) (isRadians : Bool) (v : JSNum) (c : String) :
    Option String → Option (JSNum × String)
  | some "sqrt" => some (M.sqrtFn v, "√(" ++ c ++ ")")
  | some "square" => some (jsSquare v, "(" ++ c ++ ")²")
  | some "reciprocal" => some (jsDiv (.fin 1) v, "1/(" ++ c ++ ")")
  | some "abs" => some (jsAbs v, "|" ++ c ++ "|")
  | some "sin" => some (if isRadians then M.sinFn v else M.sinFn (M.degToRad v), "sin(" ++ c ++ ")")
  | some "cos" => some (if isRadians then M.cosFn v else M.cosFn (M.degToRad v), "cos(" ++ c ++ ")")
  | some "tan" => some (if isRadians then M.tanFn v else M.tanFn (M.degToRad v), "tan(" ++ c ++ ")")
  | some "log" => some (M.log10Fn v, "log(" ++ c ++ ")")
  | some "ln" => some (M.lnFn v, "ln(" ++ c ++ ")")
  | some "factorial" => some (jsFactorial v, c ++ "!")
  | _ => none

/-- The optional-chained `state.currentOperand?.includes(".")` test:
whether the operand string has a `.` character, `undefined`/`null`
being falsy. -/
def containsDot : Option String → Bool
  | some c => '.' ∈ c.toList
  | none => false

/-- The `ADD_DIGIT` case.  The template literal
`` `${state.currentOperand || ""}${payload?.digit}` `` renders a missing
digit as the string `"undefined"`, and `x || ""` collapses both `null`
and `""` to `""`, hence the `getD` forms. -/
def addDigitCase (s : State) (digit : Option String) : State :=
  if s.overwrite then
    { s with currentOperand := digit, overwrite := false }
  else if digit = some "0" ∧ s.currentOperand = some "0" then s
  else if digit = some "." ∧ containsDot s.currentOperand then s
  else
    { s with
      currentOperand := some ((s.currentOperand.getD "") ++ (digit.getD "undefined")) }

/-- The `CHOOSE_OPERATION` case. -/
def chooseOperationCase (M : MathModel) (s : State) (opv : Option String) : State :=
  if s.currentOperand = none ∧ s.previousOperand = none then s
  else if s.currentOperand = none then
    { s with operation := opv }
  else if s.previousOperand = none then
    { s with operation := opv, previousOperand := s.currentOperand,
             currentOperand := none }
  else
    { s with previousOperand := some (evaluate M s), operation := opv,
             currentOperand := none }

/-- The `SCIENTIFIC_OPERATION` case: the `pi`/`e` constants are
accepted even on a null operand and bypass the history; the ten unary
functions require an operand and push a history entry. -/
def scientificCase (M : MathModel) (s : State) (opv : Option String) : State :=
  match s.currentOperand with
  | none =>
    if opv = some "pi" then { s with currentOperand := some piString, overwrite := true }
    else if opv = some "e" then { s with currentOperand := some eString, overwrite := true }
    else s
  | some c =>
    if opv = some "pi" then { s with currentOperand := some piString, overwrite := true }
    else if opv = some "e" then { s with currentOperand := some eString, overwrite := true }
    else
      match sciResult M s.isRadians (parseFloat c) c opv with
      | none => s
      | some r =>
        let resString := jsToString r.1
        { s with currentOperand := some resString, overwrite := true,
                 history := (⟨r.2, resString⟩ :: s.history).take 10 }

/-- The `CLEAR` case. -/
def clearCase (s : State) : State :=
  { s with currentOperand := none, previousOperand := none,
           operation := none, overwrite := false }

/-- The `DELETE_DIGIT` case. -/
def deleteDigitCase (s : State) : State :=
  if s.overwrite then
    { s with overwrite := false, currentOperand := none }
  else
    match s.currentOperand with
    | none => s
    | some c =>
      if c.length = 1 then { s with currentOperand := none }
      else { s with currentOperand := some (c.dropRight 1) }

/-- The `PERCENT` case. -/
def percentCase (s : State) : State :=
  match s.currentOperand with
  | none => s
  | some c =>
    let percentRes := jsToString (jsDiv (parseFloat c) (.fin 100))
    { s with currentOperand := some percentRes, overwrite := true,
             history := (⟨c ++ "%", percentRes⟩ :: s.history).take 10 }

/-- The `TOGGLE_SIGN` case. -/
def toggleSignCase (s : State) : State :=
  match s.currentOperand with
  | none => s
  | some c => { s with currentOperand := some (jsToString (jsNeg (parseFloat c))) }

/-- The `EVALUATE` case. -/
def evaluateCase (M : MathModel) (s : State) : State :=
  match s.operation, s.currentOperand, s.previousOperand with
  | some op, some cur, some prev =>
    let result := evaluate M s
    let expression := prev ++ " " ++ op ++ " " ++ cur
    { s with overwrite := true, previousOperand := none, operation := none,
             currentOperand := some result,
             history := (⟨expression, result⟩ :: s.history).take 10 }
  | _, _, _ => s

/-- The `SET_HISTORY_ITEM` case. -/
def setHistoryItemCase (s : State) (digit : Option String) : State :=
  { s with currentOperand := digit, overwrite := true }

/-- The reducer of `App.tsx`: dispatch on the action kind string, in
source order, the `default` case returning the state unchanged. -/
def reducer (M : MathModel) (s : State) (a : Action) : State :=
  let digit := a.payload.bind Payload.digit
  let opv := a.payload.bind Payload.operation
  if a.type = "add-digit" then addDigitCase s digit
  else if a.type = "choose-operation" then chooseOperationCase M s opv
  else if a.type = "scientific-operation" then scientificCase M s opv
  else if a.type = "clear" then clearCase s
  else if a.type = "delete-digit" then deleteDigitCase s
  else if a.type = "percent" then percentCase s
  else if a.type = "toggle-sign" then toggleSignCase s
  else if a.type = "evaluate" then evaluateCase M s
  else if a.type = "set-history-item" then setHistoryItemCase s digit
  else if a.type = "clear-history" then { s with history := [] }
  else if a.type = "toggle-units" then { s with isRadians := !s.isRadians }
  else if a.type = "set-theme" then { s with theme := opv }
  else s

/-- Folding a list of actions through the reducer. -/
def runActs (M : MathModel) (s : State) (acts : List Action) : State :=
  acts.foldl (reducer M) s

/-- An initial state: both operands and the operation are `null`,
`overwrite` is unset, and the history, angle-unit and theme fields carry
the seed read from persisted storage. -/
def initState (h : List HistEntry) (r : Bool) (t : Option String) : State :=
  ⟨none, none, none, false, h, r, t⟩

/-- The `AddDigit(d)` action as dispatched by the digit buttons and the
keyboard handler. -/
def addDigitAct (d : String) : Action := ⟨"add-digit", some ⟨some d, none⟩⟩

/-- The digit payloads the UI can dispatch with `ADD_DIGIT`: the ten
digit keys and the decimal point. -/
def DIGITS : List String :=
  ["0", "1", "2", "3", "4", "5", "6", "7", "8", "9", "."]

/-- The `Percent` action (no payload). -/
def percentAct : Action := ⟨"percent", none⟩

/-- A state holding the operand `"50"`, the starting point of the
history-eviction scenario. -/
def s50 : State := ⟨some "50", none, none, false, [], true, none⟩

/-- `n` consecutive `Percent` dispatches from `s50`; each one appends a
fresh history entry, so this exercises the history ring at its bound. -/
def percentIter (n : ℕ) : State := runActs anyModel s50 (List.replicate n percentAct)

/-- Number of `.` characters in an operand string. -/
def dotCount (c : String) : ℕ := c.toList.count '.'

/-- Whether an operand string begins with the two characters `00`. -/
def beginsWith00 (c : String) : Bool := c.toList.take 2 = ['0', '0']

/-- Well-formedness of the operand under digit entry: the overwrite
flag is clear, and a present operand has at most one decimal point and
does not begin with `00`. -/
def addDigitInv (s : State) : Prop :=
  s.overwrite = false ∧
    ∀ c, s.currentOperand = some c → dotCount c ≤ 1 ∧ beginsWith00 c = false

/-- A staged left operand always has a recorded operation. -/
def opStaged (s : State) : Prop :=
  s.previousOperand.isSome → s.operation.isSome

/-- A `ChooseOperation` dispatch always carries an operator payload;
vacuously true of every other action kind. -/
def chooseCarriesOp (a : Action) : Prop :=
  a.type = "choose-operation" → (a.payload.bind Payload.operation).isSome

theorem toList_append (a b : String) : (a ++ b).toList = a.toList ++ b.toList := by
  cases a; cases b; rfl

theorem ratAdd_eq (a b : ℚ) : ratAdd a b = a + b := by
  have ha : ((a.den : ℚ)) ≠ 0 := by positivity
  have hb : ((b.den : ℚ)) ≠ 0 := by positivity
  rw [ratAdd, Rat.mkRat_eq_div]
  push_cast
  conv_rhs => rw [← Rat.num_div_den a, ← Rat.num_div_den b, div_add_div _ _ ha hb]
  ring_nf

theorem ratSub_eq (a b : ℚ) : ratSub a b = a - b := by
  have ha : ((a.den : ℚ)) ≠ 0 := by positivity
  have hb : ((b.den : ℚ)) ≠ 0 := by positivity
  rw [ratSub, Rat.mkRat_eq_div]
  push_cast
  conv_rhs => rw [← Rat.num_div_den a, ← Rat.num_div_den b, div_sub_div _ _ ha hb]
  ring_nf

theorem ratMul_eq (a b : ℚ) : ratMul a b = a * b := by
  rw [ratMul, Rat.mkRat_eq_div]
  push_cast
  conv_rhs => rw [← Rat.num_div_den a, ← Rat.num_div_den b, div_mul_div_comm]

theorem ratNeg_eq (a : ℚ) : ratNeg a = -a := by
  rw [ratNeg, Rat.mkRat_eq_div]
  push_cast
  rw [neg_div, Rat.num_div_den]

theorem ratInv_eq (a : ℚ) : ratInv a = a⁻¹ := by
  rw [Rat.inv_def', ratInv]
  split_ifs with h
  · have hn : (a.num.natAbs : ℤ) = -a.num := by omega
    rw [Rat.mkRat_eq_divInt, hn, Rat.neg_divInt_neg]
  · have hn : (a.num.natAbs : ℤ) = a.num := by omega
    rw [Rat.mkRat_eq_divInt, hn]

theorem ratDiv_eq (a b : ℚ) : ratDiv a b = a / b := by
  rw [ratDiv, ratMul_eq, ratInv_eq, div_eq_mul_inv]

theorem ratAbs_eq (a : ℚ) : ratAbs a = |a| := by
  rw [ratAbs, Rat.mkRat_eq_div]
  push_cast [Int.cast_natAbs]
  conv_rhs => rw [← Rat.num_div_den a, abs_div]
  rw [abs_of_pos (by positivity : (0 : ℚ) < (a.den : ℚ))]

theorem ratPowNat_eq (a : ℚ) (n : ℕ) : ratPowNat a n = a ^ n := by
  induction n with
  | zero => simp [ratPowNat]
  | succ n ih => rw [ratPowNat, ratMul_eq, ih, pow_succ]

theorem ratZpow_eq (a : ℚ) (e : ℤ) : ratZpow a e = a ^ e := by
  rw [ratZpow]
  split_ifs with h
  · rw [ratPowNat_eq, ← zpow_natCast, Int.toNat_of_nonneg h]
  · have he : e = -(e.natAbs : ℤ) := by omega
    rw [ratInv_eq, ratPowNat_eq]
    conv_rhs => rw [he]
    rw [zpow_neg, zpow_natCast]

theorem reducer_add_digit (M : MathModel) (s : State) (p : Option Payload) :
    reducer M s ⟨"add-digit", p⟩ = addDigitCase s (p.bind Payload.digit) := rfl

theorem reducer_choose_operation (M : MathModel) (s : State) (p : Option Payload) :
    reducer M s ⟨"choose-operation", p⟩ = chooseOperationCase M s (p.bind Payload.operation) := rfl

theorem reducer_scientific (M : MathModel) (s : State) (p : Option Payload) :
    reducer M s ⟨"scientific-operation", p⟩ = scientificCase M s (p.bind Payload.operation) := rfl

theorem reducer_clear (M : MathModel) (s : State) (p : Option Payload) :
    reducer M s ⟨"clear", p⟩ = clearCase s := rfl

theorem reducer_delete_digit (M : MathModel) (s : State) (p : Option Payload) :
    reducer M s ⟨"delete-digit", p⟩ = deleteDigitCase s := rfl

theorem reducer_evaluate (M : MathModel) (s : State) (p : Option Payload) :
    reducer M s ⟨"evaluate", p⟩ = evaluateCase M s := rfl

/-- C8: `ClearAll` nulls both operands and the operation, clears the
overwrite flag, leaves the history unchanged, and is idempotent. -/
theorem clear_all_spec :
    (∀ (M : MathModel) (s : State) (p : Option Payload),
       reducer M s ⟨"clear", p⟩ =
         { s with currentOperand := none, previousOperand := none,
                  operation := none, overwrite := false }) ∧
    (∀ (M : MathModel) (s : State) (p : Option Payload),
       (reducer M s ⟨"clear", p⟩).history = s.history) ∧
    (∀ (M : MathModel) (s : State) (p : Option Payload),
       reducer M (reducer M s ⟨"clear", p⟩) ⟨"clear", p⟩ = reducer M s ⟨"clear", p⟩) := by
  refine ⟨?_, ?_, ?_⟩ <;> intro M s p <;> simp [reducer_clear, clearCase]

/-- C7: with the overwrite flag set, `DeleteDigit` clears the operand
and the flag; otherwise it is a no-op on a null operand, nulls a
one-character operand, and else drops the last character. -/
theorem delete_digit_spec :
    (∀ (M : MathModel) (s : State) (p : Option Payload),
       s.overwrite = true →
       reducer M s ⟨"delete-digit", p⟩ = { s with overwrite := false, currentOperand := none }) ∧
    (∀ (M : MathModel) (s : State) (p : Option Payload),
       s.overwrite = false → s.currentOperand = none →
       reducer M s ⟨"delete-digit", p⟩ = s) ∧
    (∀ (M : MathModel) (s : State) (p : Option Payload) (c : String),
       s.overwrite = false → s.currentOperand = some c → c.length = 1 →
       reducer M s ⟨"delete-digit", p⟩ = { s with currentOperand := none }) ∧
    (∀ (M : MathModel) (s : State) (p : Option Payload) (c : String),
       s.overwrite = false → s.currentOperand = some c → c.length ≠ 1 →
       reducer M s ⟨"delete-digit", p⟩ = { s with currentOperand := some (c.dropRight 1) }) := by
  refine ⟨?_, ?_, ?_, ?_⟩
  · intro M s p how
    simp [reducer_delete_digit, deleteDigitCase, how]
  · intro M s p how hc
    simp [reducer_delete_digit, deleteDigitCase, how, hc]
  · intro M s p c how hc hl
    simp [reducer_delete_digit, deleteDigitCase, how, hc, hl]
  · intro M s p c how hc hl
    simp [reducer_delete_digit, deleteDigitCase, how, hc, hl]

/-- C7 witness: one backspace on the just-evaluated result `"14"`
clears the operand instead of trimming it to `"1"`. -/
theorem delete_digit_spec_witness :
    reducer anyModel ⟨some "14", none, none, true, [], true, none⟩ ⟨"delete-digit", none⟩ =
      ⟨none, none, none, false, [], true, none⟩ :=
  (delete_digit_spec.1 anyModel ⟨some "14", none, none, true, [], true, none⟩ none rfl).trans
    (by decide)

/-- C10: `ChooseOperation` never touches the history or the overwrite
flag, in all four of its branches. -/
theorem choose_operation_frame :
    ∀ (M : MathModel) (s : State) (a : Action), a.type = "choose-operation" →
      (reducer M s a).history = s.history ∧ (reducer M s a).overwrite = s.overwrite := by
  intro M s a hty
  obtain ⟨ty, p⟩ := a
  cases hty
  rw [reducer_choose_operation]
  unfold chooseOperationCase
  split_ifs <;> simp

/-- C10 witness: the eager chaining step on `3 + 4` pushes no history
entry and leaves the overwrite flag clear. -/
theorem choose_operation_frame_witness :
    (reducer anyModel ⟨some "4", some "3", some "+", false, [], true, none⟩
        ⟨"choose-operation", some ⟨none, some "*"⟩⟩).history = [] ∧
    (reducer anyModel ⟨some "4", some "3", some "+", false, [], true, none⟩
        ⟨"choose-operation", some ⟨none, some "*"⟩⟩).overwrite = false :=
  choose_operation_frame anyModel ⟨some "4", some "3", some "+", false, [], true, none⟩
    ⟨"choose-operation", some ⟨none, some "*"⟩⟩ rfl

/-- C1: with all three of operation, current and previous operands
present, `Evaluate` replaces the current operand by the evaluated
result, clears the staged operand and operation, sets the overwrite
flag, and pushes `{"prev op cur", result}` at the front of the history
truncated to 10; with any of the three missing it is a no-op; and from
`3 + 4` it produces `"7"` with history entry `{"3 + 4", "7"}`. -/
theorem evaluate_action_spec :
    (∀ (M : MathModel) (s : State) (p : Option Payload) (op cur prev : String),
       s.operation = some op → s.currentOperand = some cur → s.previousOperand = some prev →
       reducer M s ⟨"evaluate", p⟩ =
         { s with overwrite := true, previousOperand := none, operation := none,
                  currentOperand := some (evaluate M s),
                  history := (⟨prev ++ " " ++ op ++ " " ++ cur, evaluate M s⟩ :: s.history).take 10 }) ∧
    (∀ (M : MathModel) (s : State) (p : Option Payload),
       s.operation = none ∨ s.currentOperand = none ∨ s.previousOperand = none →
       reducer M s ⟨"evaluate", p⟩ = s) ∧
    (∀ M : MathModel,
       reducer M ⟨some "4", some "3", some "+", false, [], true, none⟩ ⟨"evaluate", none⟩ =
         ⟨some "7", none, none, true, [⟨"3 + 4", "7"⟩], true, none⟩) := by
  refine ⟨?_, ?_, ?_⟩
  · intro M s p op cur prev hop hcur hprev
    rw [reducer_evaluate]
    unfold evaluateCase
    rw [hop, hcur, hprev]
  · intro M s p h
    rw [reducer_evaluate]
    unfold evaluateCase
    rcases ho : s.operation with _ | op0 <;> rcases hc : s.currentOperand with _ | c0 <;>
      rcases hp : s.previousOperand with _ | p0 <;> simp_all
  · intro M
    rfl

/-- C1 witness: the no-hypothesis instance `3 + 4`, via the general
statement. -/
theorem evaluate_action_spec_witness :
    reducer anyModel ⟨some "4", some "3", some "+", false, [], true, none⟩ ⟨"evaluate", none⟩ =
      ⟨some "7", none, none, true, [⟨"3 + 4", "7"⟩], true, none⟩ :=
  (evaluate_action_spec.1 anyModel ⟨some "4", some "3", some "+", false, [], true, none⟩
      none "+" "4" "3" rfl rfl rfl).trans (by decide)

/-- C2: with both operands present, `ChooseOperation(op)` eagerly
evaluates the pending expression into `previousOperand`, stores `op`,
and clears `currentOperand`; and the chained sequence
`3, +, 4, *, 2, =` ends with `currentOperand = "14"`. -/
theorem choose_operation_chaining :
    (∀ (M : MathModel) (s : State) (p : Option String) (op : String),
       s.currentOperand.isSome → s.previousOperand.isSome →
       reducer M s ⟨"choose-operation", some ⟨p, some op⟩⟩ =
         { s with previousOperand := some (evaluate M s), operation := some op,
                  currentOperand := none }) ∧
    (runActs anyModel (initState [] true none)
       [⟨"add-digit", some ⟨some "3", none⟩⟩, ⟨"choose-operation", some ⟨none, some "+"⟩⟩,
        ⟨"add-digit", some ⟨some "4", none⟩⟩, ⟨"choose-operation", some ⟨none, some "*"⟩⟩,
        ⟨"add-digit", some ⟨some "2", none⟩⟩, ⟨"evaluate", none⟩]).currentOperand
      = some "14" := by
  constructor
  · intro M s p op hc hp
    rw [reducer_choose_operation]
    unfold chooseOperationCase
    obtain ⟨c0, hc0⟩ := Option.isSome_iff_exists.mp hc
    obtain ⟨p0, hp0⟩ := Option.isSome_iff_exists.mp hp
    simp [hc0, hp0]
  · rfl

/-- C2 witness: the chaining step itself on operands `3`, `4` with
pending `+` and incoming `*`. -/
theorem choose_operation_chaining_witness :
    reducer anyModel ⟨some "4", some "3", some "+", false, [], true, none⟩
        ⟨"choose-operation", some ⟨none, some "*"⟩⟩ =
      ⟨none, some "7", some "*", false, [], true, none⟩ :=
  (choose_operation_chaining.1 anyModel ⟨some "4", some "3", some "+", false, [], true, none⟩
      none "*" rfl rfl).trans (by decide)

theorem addDigitCase_history (s : State) (d : Option String) :
    (addDigitCase s d).history = s.history := by
  unfold addDigitCase
  split_ifs <;> rfl

theorem chooseOperationCase_history (M : MathModel) (s : State) (o : Option String) :
    (chooseOperationCase M s o).history = s.history := by
  unfold chooseOperationCase
  split_ifs <;> rfl

theorem scientificCase_history (M : MathModel) (s : State) (o : Option String) :
    (scientificCase M s o).history = s.history ∨
      ∃ e, (scientificCase M s o).history = (e :: s.history).take 10 := by
  unfold scientificCase
  cases hc : s.currentOperand with
  | none => split_ifs <;> exact Or.inl rfl
  | some c =>
    dsimp only
    split_ifs
    · exact Or.inl rfl
    · exact Or.inl rfl
    · cases hr : sciResult M s.isRadians (parseFloat c) c o with
      | none => exact Or.inl rfl
      | some r => exact Or.inr ⟨⟨r.2, jsToString r.1⟩, rfl⟩

theorem deleteDigitCase_history (s : State) :
    (deleteDigitCase s).history = s.history := by
  unfold deleteDigitCase
  split_ifs
  · rfl
  · cases hc : s.currentOperand with
    | none => rfl
    | some c =>
      dsimp only
      split_ifs <;> rfl

theorem percentCase_history (s : State) :
    (percentCase s).history = s.history ∨
      ∃ e, (percentCase s).history = (e :: s.history).take 10 := by
  unfold percentCase
  cases hc : s.currentOperand with
  | none => exact Or.inl rfl
  | some c =>
    exact Or.inr ⟨⟨c ++ "%", jsToString (jsDiv (parseFloat c) (.fin 100))⟩, rfl⟩

theorem toggleSignCase_history (s : State) :
    (toggleSignCase s).history = s.history := by
  unfold toggleSignCase
  cases hc : s.currentOperand <;> rfl

theorem evaluateCase_history (M : MathModel) (s : State) :
    (evaluateCase M s).history = s.history ∨
      ∃ e, (evaluateCase M s).history = (e :: s.history).take 10 := by
  unfold evaluateCase
  rcases ho : s.operation with _ | op <;> rcases hc : s.currentOperand with _ | cur <;>
    rcases hp : s.previousOperand with _ | prev <;> try exact Or.inl rfl
  exact Or.inr ⟨⟨prev ++ " " ++ op ++ " " ++ cur, evaluate M s⟩, rfl⟩

/-- Dispatch of the reducer on the action kind: every transition is
one of the twelve case handlers (tagged with its kind string) or the
default identity. -/
theorem reducer_shape (M : MathModel) (s : State) (a : Action) :
    (a.type = "add-digit" ∧ reducer M s a = addDigitCase s (a.payload.bind Payload.digit)) ∨
    (a.type = "choose-operation" ∧
      reducer M s a = chooseOperationCase M s (a.payload.bind Payload.operation)) ∨
    (a.type = "scientific-operation" ∧
      reducer M s a = scientificCase M s (a.payload.bind Payload.operation)) ∨
    (a.type = "clear" ∧ reducer M s a = clearCase s) ∨
    (a.type = "delete-digit" ∧ reducer M s a = deleteDigitCase s) ∨
    (a.type = "percent" ∧ reducer M s a = percentCase s) ∨
    (a.type = "toggle-sign" ∧ reducer M s a = toggleSignCase s) ∨
    (a.type = "evaluate" ∧ reducer M s a = evaluateCase M s) ∨
    (a.type = "set-history-item" ∧
      reducer M s a = setHistoryItemCase s (a.payload.bind Payload.digit)) ∨
    (a.type = "clear-history" ∧ reducer M s a = { s with history := [] }) ∨
    (a.type = "toggle-units" ∧ reducer M s a = { s with isRadians := !s.isRadians }) ∨
    (a.type = "set-theme" ∧
      reducer M s a = { s with theme := a.payload.bind Payload.operation }) ∨
    reducer M s a = s := by
  obtain ⟨ty, p⟩ := a
  by_cases h1 : ty = "add-digit"
  · exact Or.inl ⟨h1, by subst h1; rfl⟩
  by_cases h2 : ty = "choose-operation"
  · exact Or.inr (Or.inl ⟨h2, by subst h2; rfl⟩)
  by_cases h3 : ty = "scientific-operation"
  · exact Or.inr (Or.inr (Or.inl ⟨h3, by subst h3; rfl⟩))
  by_cases h4 : ty = "clear"
  · exact Or.inr (Or.inr (Or.inr (Or.inl ⟨h4, by subst h4; rfl⟩)))
  by_cases h5 : ty = "delete-digit"
  · exact Or.inr (Or.inr (Or.inr (Or.inr (Or.inl ⟨h5, by subst h5; rfl⟩))))
  by_cases h6 : ty = "percent"
  · exact Or.inr (Or.inr (Or.inr (Or.inr (Or.inr (Or.inl ⟨h6, by subst h6; rfl⟩)))))
  by_cases h7 : ty = "toggle-sign"
  · exact Or.inr (Or.inr (Or.inr (Or.inr (Or.inr (Or.inr
      (Or.inl ⟨h7, by subst h7; rfl⟩))))))
  by_cases h8 : ty = "evaluate"
  · exact Or.inr (Or.inr (Or.inr (Or.inr (Or.inr (Or.inr (Or.inr
      (Or.inl ⟨h8, by subst h8; rfl⟩)))))))
  by_cases h9 : ty = "set-history-item"
  · exact Or.inr (Or.inr (Or.inr (Or.inr (Or.inr (Or.inr (Or.inr (Or.inr
      (Or.inl ⟨h9, by subst h9; rfl⟩))))))))
  by_cases h10 : ty = "clear-history"
  · exact Or.inr (Or.inr (Or.inr (Or.inr (Or.inr (Or.inr (Or.inr (Or.inr (Or.inr
      (Or.inl ⟨h10, by subst h10; rfl⟩)))))))))
  by_cases h11 : ty = "toggle-units"
  · exact Or.inr (Or.inr (Or.inr (Or.inr (Or.inr (Or.inr (Or.inr (Or.inr (Or.inr (Or.inr
      (Or.inl ⟨h11, by subst h11; rfl⟩))))))))))
  by_cases h12 : ty = "set-theme"
  · exact Or.inr (Or.inr (Or.inr (Or.inr (Or.inr (Or.inr (Or.inr (Or.inr (Or.inr (Or.inr
      (Or.inr (Or.inl ⟨h12, by subst h12; rfl⟩)))))))))))
  refine Or.inr (Or.inr (Or.inr (Or.inr (Or.inr (Or.inr (Or.inr (Or.inr (Or.inr (Or.inr
    (Or.inr (Or.inr ?_)))))))))))
  simp [reducer, h1, h2, h3, h4, h5, h6, h7, h8, h9, h10, h11, h12]

/-- Every reducer transition leaves the history unchanged, replaces it
by a 10-truncated push, or empties it. -/
theorem reducer_history_shape (M : MathModel) (s : State) (a : Action) :
    (reducer M s a).history = s.history ∨
      (∃ e, (reducer M s a).history = (e :: s.history).take 10) ∨
      (reducer M s a).history = [] := by
  rcases reducer_shape M s a with ⟨-, e1⟩ | ⟨-, e2⟩ | ⟨-, e3⟩ | ⟨-, e4⟩ | ⟨-, e5⟩ | ⟨-, e6⟩ |
    ⟨-, e7⟩ | ⟨-, e8⟩ | ⟨-, e9⟩ | ⟨-, e10⟩ | ⟨-, e11⟩ | ⟨-, e12⟩ | e13
  · rw [e1]
    exact Or.inl (addDigitCase_history s _)
  · rw [e2]
    exact Or.inl (chooseOperationCase_history M s _)
  · rw [e3]
    rcases scientificCase_history M s _ with hh | hh
    · exact Or.inl hh
    · exact Or.inr (Or.inl hh)
  · rw [e4]
    exact Or.inl rfl
  · rw [e5]
    exact Or.inl (deleteDigitCase_history s)
  · rw [e6]
    rcases percentCase_history s with hh | hh
    · exact Or.inl hh
    · exact Or.inr (Or.inl hh)
  · rw [e7]
    exact Or.inl (toggleSignCase_history s)
  · rw [e8]
    rcases evaluateCase_history M s with hh | hh
    · exact Or.inl hh
    · exact Or.inr (Or.inl hh)
  · rw [e9]
    exact Or.inl rfl
  · rw [e10]
    exact Or.inr (Or.inr rfl)
  · rw [e11]
    exact Or.inl rfl
  · rw [e12]
    exact Or.inl rfl
  · rw [e13]
    exact Or.inl rfl

/-- C3: every transition preserves `history.length ≤ 10`; and after 11
consecutive history-appending (`Percent`) actions from operand `"50"`,
the history holds exactly 10 entries, the newest is at index 0, and the
first entry pushed (`{"50%", "0.5"}`, still present after 10 actions)
has been evicted. -/
theorem history_bound :
    (∀ (M : MathModel) (s : State) (a : Action),
       s.history.length ≤ 10 → (reducer M s a).history.length ≤ 10) ∧
    ((percentIter 11).history.length = 10 ∧
     (percentIter 11).history.head? =
       some ⟨"0.0000000000000000005%", "0.000000000000000000005"⟩ ∧
     (⟨"50%", "0.5"⟩ : HistEntry) ∈ (percentIter 10).history ∧
     (⟨"50%", "0.5"⟩ : HistEntry) ∉ (percentIter 11).history) := by
  constructor
  · intro M s a h
    rcases reducer_history_shape M s a with hs | ⟨e, hs⟩ | hs <;> rw [hs]
    · exact h
    · simp only [List.length_take]
      omega
    · simp
  · exact ⟨by decide, by decide, by decide, by decide⟩

/-- C3 witness: the bound applied at a concrete state one push below
the cap. -/
theorem history_bound_witness :
    (reducer anyModel (percentIter 11) percentAct).history.length ≤ 10 :=
  history_bound.1 anyModel (percentIter 11) percentAct (by decide)

/-- C4 counterexample: on the non-integer operand `"2.5"` the factorial
key yields `"2"` (the loop `for (i = 2; i <= n; i++)` runs once), not
the not-a-number sentinel the claim requires. -/
theorem factorial_non_integer_cex :
    (reducer anyModel ⟨some "2.5", none, none, false, [], true, none⟩
        ⟨"scientific-operation", some ⟨none, some "factorial"⟩⟩).currentOperand = some "2" ∧
    ("2" : String) ≠ jsToString JSNum.nan :=
  ⟨by decide, by decide⟩

/-- C4 amended: with a present operand parsing to a finite value `q`,
`ScientificOperation("factorial")` yields `⌊q⌋!` when `q ≥ 0` (the
factorial itself on non-negative integers, but e.g. `"2.5"` gives `"2"`,
not the NaN sentinel) and the NaN sentinel only when `q < 0`; the
reducer never fails.  Concretely `"5"` gives `"120"`, `"-1"` gives
`"NaN"`, and `"2.5"` gives `"2"`. -/
theorem factorial_spec_amended :
    (∀ (M : MathModel) (s : State) (p : Option String) (c : String) (q : ℚ),
       s.currentOperand = some c → parseFloat c = .fin q → 0 ≤ q →
       reducer M s ⟨"scientific-operation", some ⟨p, some "factorial"⟩⟩ =
         { s with
           currentOperand := some (ratToString ((Nat.factorial (q.num.toNat / q.den) : ℕ) : ℚ)),
           overwrite := true,
           history := (⟨c ++ "!", ratToString ((Nat.factorial (q.num.toNat / q.den) : ℕ) : ℚ)⟩
             :: s.history).take 10 }) ∧
    (∀ (M : MathModel) (s : State) (p : Option String) (c : String) (q : ℚ),
       s.currentOperand = some c → parseFloat c = .fin q → q < 0 →
       reducer M s ⟨"scientific-operation", some ⟨p, some "factorial"⟩⟩ =
         { s with currentOperand := some "NaN", overwrite := true,
                  history := (⟨c ++ "!", "NaN"⟩ :: s.history).take 10 }) ∧
    ((reducer anyModel ⟨some "5", none, none, false, [], true, none⟩
        ⟨"scientific-operation", some ⟨none, some "factorial"⟩⟩).currentOperand = some "120") ∧
    ((reducer anyModel ⟨some "-1", none, none, false, [], true, none⟩
        ⟨"scientific-operation", some ⟨none, some "factorial"⟩⟩).currentOperand = some "NaN") ∧
    ((reducer anyModel ⟨some "2.5", none, none, false, [], true, none⟩
        ⟨"scientific-operation", some ⟨none, some "factorial"⟩⟩).currentOperand = some "2") := by
  refine ⟨?_, ?_, by decide, by decide, by decide⟩
  · intro M s p c q hc hq hq0
    rw [reducer_scientific]
    unfold scientificCase
    rw [hc]
    dsimp only [Option.some_bind]
    rw [if_neg (by simp), if_neg (by simp), hq]
    rw [show sciResult M s.isRadians (JSNum.fin q) c (some "factorial")
          = some (jsFactorial (JSNum.fin q), c ++ "!") from rfl]
    dsimp only
    unfold jsFactorial
    dsimp only
    rw [if_neg (not_lt.mpr hq0)]
    rfl
  · intro M s p c q hc hq hq0
    rw [reducer_scientific]
    unfold scientificCase
    rw [hc]
    dsimp only [Option.some_bind]
    rw [if_neg (by simp), if_neg (by simp), hq]
    rw [show sciResult M s.isRadians (JSNum.fin q) c (some "factorial")
          = some (jsFactorial (JSNum.fin q), c ++ "!") from rfl]
    dsimp only
    unfold jsFactorial
    dsimp only
    rw [if_pos hq0]
    rfl

/-- C4 amended witness: the `"5"` instance through the general
statement. -/
theorem factorial_spec_amended_witness :
    reducer anyModel ⟨some "5", none, none, false, [], true, none⟩
        ⟨"scientific-operation", some ⟨none, some "factorial"⟩⟩ =
      ⟨some "120", none, none, true, [⟨"5!", "120"⟩], true, none⟩ :=
  (factorial_spec_amended.1 anyModel ⟨some "5", none, none, false, [], true, none⟩
      none "5" 5 rfl (by decide) (by decide)).trans (by decide)

theorem addDigitCase_frame (s : State) (d : Option String) :
    (addDigitCase s d).previousOperand = s.previousOperand ∧
      (addDigitCase s d).operation = s.operation := by
  unfold addDigitCase
  split_ifs <;> exact ⟨rfl, rfl⟩

theorem scientificCase_frame (M : MathModel) (s : State) (o : Option String) :
    (scientificCase M s o).previousOperand = s.previousOperand ∧
      (scientificCase M s o).operation = s.operation := by
  unfold scientificCase
  cases hc : s.currentOperand with
  | none =>
    dsimp only
    split_ifs <;> exact ⟨rfl, rfl⟩
  | some c =>
    dsimp only
    split_ifs
    · exact ⟨rfl, rfl⟩
    · exact ⟨rfl, rfl⟩
    · cases hr : sciResult M s.isRadians (parseFloat c) c o with
      | none => exact ⟨rfl, rfl⟩
      | some r => exact ⟨rfl, rfl⟩

theorem deleteDigitCase_frame (s : State) :
    (deleteDigitCase s).previousOperand = s.previousOperand ∧
      (deleteDigitCase s).operation = s.operation := by
  unfold deleteDigitCase
  split_ifs
  · exact ⟨rfl, rfl⟩
  · cases hc : s.currentOperand with
    | none => exact ⟨rfl, rfl⟩
    | some c =>
      dsimp only
      split_ifs <;> exact ⟨rfl, rfl⟩

theorem percentCase_frame (s : State) :
    (percentCase s).previousOperand = s.previousOperand ∧
      (percentCase s).operation = s.operation := by
  unfold percentCase
  cases hc : s.currentOperand <;> exact ⟨rfl, rfl⟩

theorem toggleSignCase_frame (s : State) :
    (toggleSignCase s).previousOperand = s.previousOperand ∧
      (toggleSignCase s).operation = s.operation := by
  unfold toggleSignCase
  cases hc : s.currentOperand <;> exact ⟨rfl, rfl⟩

theorem chooseOperationCase_opStaged (M : MathModel) (s : State) (o : Option String)
    (ho : o.isSome) (h : opStaged s) : opStaged (chooseOperationCase M s o) := by
  unfold chooseOperationCase
  split_ifs with h1 h2 h3
  · exact h
  · intro _
    exact ho
  · intro _
    exact ho
  · intro _
    exact ho

theorem evaluateCase_opStaged (M : MathModel) (s : State) (h : opStaged s) :
    opStaged (evaluateCase M s) := by
  unfold evaluateCase
  rcases ho : s.operation with _ | op <;> rcases hc : s.currentOperand with _ | cur <;>
    rcases hp : s.previousOperand with _ | prev <;> try exact h
  intro hcontra
  simp at hcontra

/-- Any action whose `ChooseOperation` payload carries an operator
preserves the "staged operand implies pending operation" property. -/
theorem reducer_opStaged (M : MathModel) (s : State) (a : Action)
    (ha : a.type = "choose-operation" → (a.payload.bind Payload.operation).isSome)
    (h : opStaged s) : opStaged (reducer M s a) := by
  rcases reducer_shape M s a with ⟨-, f1⟩ | ⟨hty, f2⟩ | ⟨-, f3⟩ | ⟨-, f4⟩ | ⟨-, f5⟩ |
    ⟨-, f6⟩ | ⟨-, f7⟩ | ⟨-, f8⟩ | ⟨-, f9⟩ | ⟨-, f10⟩ | ⟨-, f11⟩ | ⟨-, f12⟩ | f13
  · rw [opStaged, f1, (addDigitCase_frame s _).1, (addDigitCase_frame s _).2]
    exact h
  · rw [f2]
    exact chooseOperationCase_opStaged M s _ (ha hty) h
  · rw [opStaged, f3, (scientificCase_frame M s _).1, (scientificCase_frame M s _).2]
    exact h
  · rw [opStaged, f4]
    intro hcontra
    simp [clearCase] at hcontra
  · rw [opStaged, f5, (deleteDigitCase_frame s).1, (deleteDigitCase_frame s).2]
    exact h
  · rw [opStaged, f6, (percentCase_frame s).1, (percentCase_frame s).2]
    exact h
  · rw [opStaged, f7, (toggleSignCase_frame s).1, (toggleSignCase_frame s).2]
    exact h
  · rw [f8]
    exact evaluateCase_opStaged M s h
  · rw [opStaged, f9]
    exact h
  · rw [opStaged, f10]
    exact h
  · rw [opStaged, f11]
    exact h
  · rw [opStaged, f12]
    exact h
  · rw [opStaged, f13]
    exact h

theorem runActs_opStaged (M : MathModel) (acts : List Action) :
    ∀ s : State,
      (∀ a ∈ acts, a.type = "choose-operation" → (a.payload.bind Payload.operation).isSome) →
      opStaged s → opStaged (runActs M s acts) := by
  induction acts with
  | nil => exact fun s _ h => h
  | cons a rest ih =>
    intro s ha h
    exact ih (reducer M s a) (fun b hb => ha b (List.mem_cons_of_mem a hb))
      (reducer_opStaged M s a (ha a (List.mem_cons_self a rest)) h)

/-- C9: from any initial state (both operands and the operation null),
under action sequences whose `ChooseOperation` dispatches all carry an
operator payload, a non-null `previousOperand` always comes with a
non-null `operation`. -/
theorem staged_operand_invariant :
    ∀ (M : MathModel) (h : List HistEntry) (r : Bool) (t : Option String) (acts : List Action),
      (∀ a ∈ acts, a.type = "choose-operation" → (a.payload.bind Payload.operation).isSome) →
      (runActs M (initState h r t) acts).previousOperand.isSome →
      (runActs M (initState h r t) acts).operation.isSome := by
  intro M h r t acts ha
  exact runActs_opStaged M acts (initState h r t) ha (by intro hc; simp [initState] at hc)

/-- C9 witness: after staging `3 +` the operation accompanies the
staged operand. -/
theorem staged_operand_invariant_witness :
    (runActs anyModel (initState [] true none)
        [addDigitAct "3", ⟨"choose-operation", some ⟨none, some "+"⟩⟩]).operation.isSome :=
  staged_operand_invariant anyModel [] true none
    [addDigitAct "3", ⟨"choose-operation", some ⟨none, some "+"⟩⟩] (by decide) (by decide)

theorem count_toList_append (a b : String) (ch : Char) :
    (a ++ b).toList.count ch = a.toList.count ch + b.toList.count ch := by
  rw [toList_append, List.count_append]

theorem string_eq_of_toList {a : String} {l : List Char} (h : a.toList = l) : a = ⟨l⟩ := by
  cases a
  exact congrArg String.mk h

/-- One digit-button press preserves the digit-entry wellformedness
invariant. -/
theorem addDigitCase_inv (s : State) (d : String) (hd : d ∈ DIGITS) (h : addDigitInv s) :
    addDigitInv (addDigitCase s (some d)) := by
  obtain ⟨how, hop⟩ := h
  have hch : ∃ ch, d.toList = [ch] := by fin_cases hd <;> exact ⟨_, rfl⟩
  unfold addDigitCase
  split_ifs with h1 h2 h3
  · exact absurd h1 (by simp [how])
  · exact ⟨how, hop⟩
  · exact ⟨how, hop⟩
  · refine ⟨how, ?_⟩
    intro c hc
    simp only [Option.getD_some, Option.some.injEq] at hc
    subst hc
    cases hcur : s.currentOperand with
    | none =>
      fin_cases hd <;> decide
    | some c1 =>
      obtain ⟨l1⟩ := c1
      have hP := hop ⟨l1⟩ hcur
      simp only [Option.getD_some]
      have hdot : d = "." ∨ d.toList.count '.' = 0 := by fin_cases hd <;> simp
      constructor
      · show ((⟨l1⟩ : String) ++ d).toList.count '.' ≤ 1
        rw [count_toList_append]
        rcases hdot with rfl | hd0
        · have hnd : ¬ ('.' ∈ l1) := by
            intro hmem
            refine h3 ⟨rfl, ?_⟩
            rw [hcur]
            simp only [containsDot, decide_eq_true_eq]
            exact hmem
          have hz : l1.count '.' = 0 := List.count_eq_zero.mpr hnd
          have hone : (".").toList.count '.' = 1 := by decide
          show l1.count '.' + (".").toList.count '.' ≤ 1
          rw [hz, hone]
        · have hle : l1.count '.' ≤ 1 := hP.1
          show l1.count '.' + d.toList.count '.' ≤ 1
          rw [hd0]
          omega
      · obtain ⟨ch, hch1⟩ := hch
        have hd0 : d = ⟨[ch]⟩ := string_eq_of_toList hch1
        subst hd0
        rcases l1 with _ | ⟨x, _ | ⟨y, rest⟩⟩
        · show decide (([ch] : List Char) = ['0', '0']) = false
          simp
        · show decide (([x, ch] : List Char) = ['0', '0']) = false
          apply decide_eq_false
          intro hbad
          rw [List.cons.injEq, List.cons.injEq] at hbad
          obtain ⟨hx, hch0, -⟩ := hbad
          refine h2 ⟨?_, ?_⟩
          · rw [hch0]
          · rw [hcur, hx]
        · have h00 := hP.2
          rw [beginsWith00] at h00
          exact decide_eq_false (of_decide_eq_false h00)

theorem addDigit_reach_inv (M : MathModel) (ds : List String) :
    ∀ s : State, (∀ d ∈ ds, d ∈ DIGITS) → addDigitInv s →
      addDigitInv (runActs M s (ds.map addDigitAct)) := by
  induction ds with
  | nil => exact fun s _ h => h
  | cons d rest ih =>
    intro s hds h
    exact ih (reducer M s (addDigitAct d)) (fun e he => hds e (List.mem_cons_of_mem d he))
      (by rw [show reducer M s (addDigitAct d) = addDigitCase s (some d) from rfl]
          exact addDigitCase_inv s d (hds d (List.mem_cons_self d rest)) h)

/-- C6 counterexample: from the initial state, `AddDigit("0")` then
`AddDigit("5")` yields the operand `"05"` — a redundant leading zero
followed by another digit, which the claim says never occurs. -/
theorem add_digit_leading_zero_cex :
    (runActs anyModel (initState [] true none)
        [addDigitAct "0", addDigitAct "5"]).currentOperand = some "05" ∧
    ("05").toList = ['0', '5'] :=
  ⟨by decide, by decide⟩

/-- C6 amended: in every state reachable from the initial state by
`AddDigit` actions over the UI digit set, a non-null `currentOperand`
never contains two `.` characters and never begins with `"00"`; the
original claim's further clause — no redundant leading zero followed by
another digit — is refuted by the reachable operand `"05"`. -/
theorem add_digit_operand_wellformed :
    ∀ (M : MathModel) (h : List HistEntry) (r : Bool) (t : Option String) (ds : List String),
      (∀ d ∈ ds, d ∈ DIGITS) →
      ∀ c, (runActs M (initState h r t) (ds.map addDigitAct)).currentOperand = some c →
        dotCount c ≤ 1 ∧ beginsWith00 c = false := by
  intro M h r t ds hds c hc
  refine (addDigit_reach_inv M ds (initState h r t) hds ⟨rfl, ?_⟩).2 c hc
  intro c0 hc0
  simp [initState] at hc0

/-- C6 amended witness: entering `3`, `.`, `5` yields `"3.5"`, with one
point and no `00` start. -/
theorem add_digit_operand_wellformed_witness :
    dotCount "3.5" ≤ 1 ∧ beginsWith00 "3.5" = false :=
  add_digit_operand_wellformed anyModel [] true none ["3", ".", "5"] (by decide) "3.5" (by decide)

theorem natCast_le_rat (k m : ℕ) (q : ℚ) (hm : (m : ℤ) = ⌊q⌋) :
    ((k : ℚ) ≤ q) ↔ k ≤ m := by
  rw [show ((k : ℚ)) = (((k : ℕ) : ℤ) : ℚ) by push_cast; ring]
  rw [← Int.le_floor, ← hm]
  exact Int.ofNat_le

theorem rangeProd_succ : ∀ (c k : ℕ), rangeProd k (c + 1) = rangeProd k c * (k + c) := by
  intro c
  induction c with
  | zero =>
    intro k
    simp [rangeProd]
  | succ c ih =>
    intro k
    rw [rangeProd, ih (k + 1), rangeProd]
    ring

theorem rangeProd_one (m : ℕ) : rangeProd 1 m = m.factorial := by
  induction m with
  | zero => rfl
  | succ m ih =>
    rw [rangeProd_succ, ih, Nat.factorial_succ]
    ring

theorem rangeProd_two (m : ℕ) : rangeProd 2 (m - 1) = m.factorial := by
  cases m with
  | zero => rfl
  | succ mm =>
    have h := rangeProd_one (mm + 1)
    rw [rangeProd, one_mul] at h
    exact h

theorem factLoop_inf : ∀ (fuel : ℕ) (i res : ℚ), factLoop JSNum.inf i res fuel = none := by
  intro fuel
  induction fuel with
  | zero =>
    intro i res
    simp [factLoop, jsLeQ]
  | succ fuel ih =>
    intro i res
    simp [factLoop, jsLeQ, ih]

/-- The factorial loop of the source never exits on `Infinity`: the
guard `i <= Infinity` holds forever, so every fuel runs out. -/
theorem factorialFuel_inf (fuel : ℕ) : factorialFuel JSNum.inf fuel = none := by
  rw [factorialFuel, if_neg (by simp [jsLtZero]), if_neg (by simp), factLoop_inf]
  rfl

/-- On a finite bound the loop exits, after at most `⌊q⌋` iterations,
with the accumulated product of the counter values. -/
theorem factLoop_fin (q : ℚ) (m : ℕ) (hm : (m : ℤ) = ⌊q⌋) :
    ∀ (fuel k : ℕ) (res : ℚ), m + 1 ≤ k + fuel →
      factLoop (.fin q) (k : ℚ) res fuel = some (res * (rangeProd k (m + 1 - k) : ℕ)) := by
  intro fuel
  induction fuel with
  | zero =>
    intro k res hk
    have hgt : ¬ ((k : ℚ) ≤ q) := by
      rw [natCast_le_rat k m q hm]
      omega
    simp only [factLoop, jsLeQ, hgt, decide_False, Bool.false_eq_true, if_false]
    rw [show m + 1 - k = 0 from by omega]
    simp [rangeProd]
  | succ fuel ih =>
    intro k res hk
    by_cases hkm : k ≤ m
    · have hle : ((k : ℚ) ≤ q) := (natCast_le_rat k m q hm).mpr hkm
      simp only [factLoop, jsLeQ, hle, decide_True, if_true]
      rw [show ratAdd (k : ℚ) 1 = ((k + 1 : ℕ) : ℚ) by rw [ratAdd_eq]; push_cast; ring]
      rw [ih (k + 1) (ratMul res (k : ℚ)) (by omega)]
      rw [ratMul_eq]
      rw [show m + 1 - k = (m - k) + 1 from by omega]
      rw [show m + 1 - (k + 1) = m - k from by omega]
      rw [rangeProd]
      push_cast
      ring_nf
    · have hgt : ¬ ((k : ℚ) ≤ q) := by
        rw [natCast_le_rat k m q hm]
        omega
      simp only [factLoop, jsLeQ, hgt, decide_False, Bool.false_eq_true, if_false]
      rw [show m + 1 - k = 0 from by omega]
      simp [rangeProd]

/-- C5 counterexample: the operand `"Infinity"` is reachable (it is
what the reciprocal of `"0"` displays), `parseFloat` yields `Infinity`
on it, and on that value the factorial loop never returns for any
number of iterations — so the concrete reachable state holding
`"Infinity"` under `ScientificOperation("factorial")` makes the source
reducer run forever instead of returning a state. -/
theorem reducer_totality_cex :
    (reducer anyModel ⟨some "0", none, none, false, [], true, none⟩
        ⟨"scientific-operation", some ⟨none, some "reciprocal"⟩⟩).currentOperand
      = some "Infinity" ∧
    parseFloat "Infinity" = JSNum.inf ∧
    ¬ ∃ fuel r, factorialFuel JSNum.inf fuel = some r := by
  refine ⟨by decide, by decide, ?_⟩
  rintro ⟨fuel, r, hr⟩
  rw [factorialFuel_inf fuel] at hr
  exact Option.noConfusion hr

/-- C5 amended: the reducer never throws, and every action whose kind
is not one of the twelve recognized kind strings is the identity
transform; but it is not total: the factorial loop, modelled faithfully
as the fuel-indexed `factorialFuel`, terminates with exactly the value
the embedding assigns (`jsFactorial`) on every number other than
`Infinity`, and diverges on `Infinity` — an operand the calculator can
reach (reciprocal of `"0"`). -/
theorem reducer_totality_amended :
    (∀ (M : MathModel) (s : State) (a : Action),
       a.type ∉ (["add-digit", "choose-operation", "scientific-operation", "clear",
                  "delete-digit", "percent", "toggle-sign", "evaluate", "set-history-item",
                  "clear-history", "toggle-units", "set-theme"] : List String) →
       reducer M s a = s) ∧
    (∀ x : JSNum, x ≠ JSNum.inf → ∃ fuel, factorialFuel x fuel = some (jsFactorial x)) ∧
    (∀ fuel : ℕ, factorialFuel JSNum.inf fuel = none) := by
  refine ⟨?_, ?_, factorialFuel_inf⟩
  · intro M s a h
    simp only [List.mem_cons, List.not_mem_nil, or_false, not_or] at h
    obtain ⟨h1, h2, h3, h4, h5, h6, h7, h8, h9, h10, h11, h12⟩ := h
    simp [reducer, h1, h2, h3, h4, h5, h6, h7, h8, h9, h10, h11, h12]
  · intro x hx
    rcases x with _ | _ | _ | q
    · exact ⟨0, by decide⟩
    · exact absurd rfl hx
    · exact ⟨0, by decide⟩
    · by_cases hq : q < 0
      · refine ⟨0, ?_⟩
        rw [factorialFuel,
          if_pos (by simp only [jsLtZero, decide_eq_true_eq]; exact hq)]
        simp [jsFactorial, hq]
      · by_cases hq0 : q = 0
        · subst hq0
          exact ⟨0, by decide⟩
        · have hq0' : 0 ≤ q := not_lt.mp hq
          have hnum : (q.num.toNat : ℤ) = q.num := Int.toNat_of_nonneg (Rat.num_nonneg.mpr hq0')
          have hm : ((q.num.toNat / q.den : ℕ) : ℤ) = ⌊q⌋ := by
            rw [Rat.floor_def, Int.ofNat_tdiv, hnum]
            exact Int.tdiv_eq_ediv (Rat.num_nonneg.mpr hq0') (Int.ofNat_nonneg q.den)
          refine ⟨q.num.toNat / q.den + 1, ?_⟩
          rw [factorialFuel,
            if_neg (by simp only [jsLtZero, decide_eq_true_eq]; exact hq),
            if_neg (by simpa using hq0)]
          rw [show ((2 : ℚ)) = ((2 : ℕ) : ℚ) by norm_num]
          rw [factLoop_fin q (q.num.toNat / q.den) hm (q.num.toNat / q.den + 1) 2 1 (by omega)]
          rw [show q.num.toNat / q.den + 1 - 2 = q.num.toNat / q.den - 1 from by omega]
          rw [rangeProd_two, one_mul]
          simp [jsFactorial, hq]

/-- C5 amended witness: a made-up action kind is the identity on a
sample state, and the loop run on `5` returns `120`. -/
theorem reducer_totality_amended_witness :
    (reducer anyModel ⟨some "7", none, none, true, [], true, none⟩ ⟨"bogus", none⟩ =
      ⟨some "7", none, none, true, [], true, none⟩) ∧
    ∃ fuel, factorialFuel (JSNum.fin 5) fuel = some (JSNum.fin 120) := by
  constructor
  · exact reducer_totality_amended.1 anyModel _ ⟨"bogus", none⟩ (by decide)
  · obtain ⟨fuel, hf⟩ := reducer_totality_amended.2.1 (JSNum.fin 5) (by decide)
    exact ⟨fuel, by rw [hf]; decide⟩

end Calculator
